import Mathlib

/-!
Verification of the job lifecycle manager of the CompChemJobServer repository
(files src/job_server.py and src/src/manager.py, src/src/routes.py).

The embedding follows the source:
  - the in-memory registry of the class JobManager (the jobs dict, the
    job_queue list and the running_jobs counter) becomes the record MState;
  - the methods submit_job, process_queue, run_job and collect_output_files
    become Lean functions over MState;
  - the thread-per-job execution is modelled as a step relation whose atomic
    steps are the lock-protected or thread-local blocks of the source: a
    submission, one call to process_queue, the begin of run_job in its worker
    thread (status becomes running), and the end of run_job (the epilogue
    after subprocess.run returns or raises, including artifact collection and
    the running_jobs decrement);
  - the filesystem is modelled as an association list from path to content
    for the input/staging writes, and by explicit success flags for the
    move/copy operations of collect_output_files, whose outcomes the program
    does not control;
  - timestamps (datetime.now().isoformat()) are modelled as natural numbers:
    the source compares them only through sorted(), and the ISO format of a
    monotone clock is order-isomorphic to Nat;
  - job identifiers (uuid4 strings in the source) are modelled as the values
    of a fresh-id counter.
-/

/-- Job status, the four values used by the source
(queued / running / completed / failed). -/
inductive Status
  | queued
  | running
  | completed
  | failed
deriving DecidableEq, Repr

/-- The job record created in JobManager.submit_job (job_server.py lines
63 to 74): one dict per job. -/
structure Job where
  id : Nat
  name : String
  program : String
  input_content : String
  status : Status
  submitted_at : Nat
  started_at : Option Nat
  completed_at : Option Nat
  error : Option String
  output_files : List String
deriving DecidableEq, Repr

/-- The filesystem fragment touched by input persistence and the stdout and
stderr staging writes: an association list from path to content, newest
write first. -/
abbrev FS := List (String × String)

/-- Writing a file with open(path, w): the full content replaces whatever
was at the path. -/
def fsWrite (fs : FS) (p c : String) : FS := (p, c) :: fs

/-- Reading a file back: the most recent write to the path. -/
def fsRead : FS → String → Option String
  | [], _ => none
  | (q, c) :: rest, p => if q = p then some c else fsRead rest p

/-- Path of the persisted input, input/(job_id).inp
(job_server.py lines 76 to 77). -/
def inpPath (id : Nat) : String := "input/" ++ toString id ++ ".inp"

/-- Staging path of the primary output, output/(job_id).out, keyed by the
job identifier as a string (job_server.py line 116). -/
def outPathS (id : String) : String := "output/" ++ id ++ ".out"

/-- Staging path of the error stream, output/(job_id).err
(job_server.py line 157). -/
def errPathS (id : String) : String := "output/" ++ id ++ ".err"

/-- Stream persistence of job_server.py lines 151 to 158: the .out write is
guarded by (program == orca and result.stdout); the .err write is NESTED
inside that guard, so stderr reaches disk only when stdout is non-empty. -/
def persist_streams_js (program stdout stderr : String) (fs : FS) (id : String) : FS :=
  if program = "orca" ∧ stdout ≠ "" then
    let fs1 := fsWrite fs (outPathS id) stdout
    if stderr ≠ "" then fsWrite fs1 (errPathS id) stderr else fs1
  else fs

/-- Stream persistence of src/src/manager.py lines 87 to 92: the two writes
are independent sibling conditionals. -/
def persist_streams_mgr (stdout stderr : String) (fs : FS) (id : String) : FS :=
  let fs1 := if stdout ≠ "" then fsWrite fs (outPathS id) stdout else fs
  if stderr ≠ "" then fsWrite fs1 (errPathS id) stderr else fs1

/-- Configuration: the only field the manager logic reads is
CONFIG[max_concurrent_jobs]. -/
structure Config where
  max_concurrent_jobs : Nat
deriving DecidableEq, Repr

/-- The registry state of JobManager (job_server.py lines 45 to 49), plus
the bookkeeping needed to describe the worker threads: admitted holds the
ids popped by process_queue whose run_job thread has not yet executed its
first statement, inflight holds the ids whose run_job has set the status to
running and has not yet finished. nextId is the fresh-identifier counter
standing in for uuid4. -/
structure MState where
  jobs : List (Nat × Job)
  job_queue : List Nat
  admitted : List Nat
  inflight : List Nat
  running_jobs : Nat
  nextId : Nat
deriving DecidableEq, Repr

/-- JobManager.__init__: empty registry, empty queue, zero running. -/
def initState : MState :=
  { jobs := [], job_queue := [], admitted := [], inflight := [], running_jobs := 0, nextId := 0 }

/-- Model of the Python str.lower() call applied to the program value:
lowercase every character. -/
def lowerString (s : String) : String := String.mk (s.data.map Char.toLower)

/-- The fresh job dict of submit_job (job_server.py lines 63 to 74);
the program value is lowercased as in job_data.get(program, qchem).lower(). -/
def mkJob (id : Nat) (name program input_content : String) (t : Nat) : Job :=
  { id := id, name := name, program := lowerString program, input_content := input_content,
    status := Status.queued, submitted_at := t, started_at := none, completed_at := none,
    error := none, output_files := [] }

/-- JobManager.submit_job (job_server.py lines 59 to 87), up to and
including the lock-protected registration. The input file is written BEFORE
the registry is touched; writeOk models whether that write raises IOError,
in which case the exception propagates and the registry is left exactly as
it was. The trailing call to self.process_queue() is a separate step of the
transition relation. -/
def submit_job (st : MState) (fs : FS) (name program input_content : String)
    (writeOk : Bool) (t : Nat) : MState × FS × Except String Nat :=
  let id := st.nextId
  let job := mkJob id name program input_content t
  if writeOk then
    ({ st with jobs := st.jobs ++ [(id, job)],
               job_queue := st.job_queue ++ [id],
               nextId := id + 1 },
     fsWrite fs (inpPath id) input_content,
     Except.ok id)
  else
    (st, fs, Except.error "IOError: could not persist input file")

/-- JobManager.process_queue (job_server.py lines 89 to 104): under the
lock, return unchanged if running_jobs >= max_concurrent_jobs or the queue
is empty; otherwise pop the queue head, increment running_jobs, and spawn
the run_job thread for that id (recorded in admitted). -/
def process_queue (cfg : Config) (st : MState) : MState :=
  if cfg.max_concurrent_jobs ≤ st.running_jobs then st
  else
    match st.job_queue with
    | [] => st
    | j :: rest =>
      { st with job_queue := rest,
                running_jobs := st.running_jobs + 1,
                admitted := j :: st.admitted }

/-- Point update of the jobs map at one identifier. -/
def updateJob (m : List (Nat × Job)) (id : Nat) (f : Job → Job) : List (Nat × Job) :=
  m.map (fun p => if p.1 = id then (p.1, f p.2) else p)

/-- The first statements of run_job in its worker thread (job_server.py
lines 111 to 112): the status becomes running and started_at is set. -/
def start_run (st : MState) (j : Nat) (t : Nat) : MState :=
  { st with admitted := st.admitted.erase j,
            inflight := j :: st.inflight,
            jobs := updateJob st.jobs j
              (fun job => { job with status := Status.running, started_at := some t }) }

/-- One entry of the scratch directory as seen by the glob loop of
collect_output_files: its name, whether it is a regular file, and whether
the shutil.copy of it succeeds (the source catches a copy failure, logs it
and goes on). -/
structure ScratchFile where
  name : String
  isFile : Bool
  copyOk : Bool
deriving DecidableEq, Repr

/-- The part of the environment of one run that the program does not
control: whether the staging output/error files already exist when the
epilogue runs (for qchem the external program itself writes the .out
staging file), whether each shutil.move of a staging file succeeds, and the
scratch directory contents in enumeration order.
Directory creation (mkdir with exist_ok) is modelled as succeeding. -/
structure RunEnv where
  preOut : Bool
  preErr : Bool
  moveOutOk : Bool
  moveErrOk : Bool
  scratch : List ScratchFile
deriving DecidableEq, Repr

/-- Outcome of the subprocess.run call inside run_job: normal completion
with an exit code and captured streams, the TimeoutExpired exception, or
any other exception raised while preparing or launching the subprocess
(unsupported program ValueError, mkdir failure, missing executable, ...). -/
inductive SubprocResult
  | done (returncode : Int) (stdout stderr : String)
  | timedOut
  | raised (msg : String)
deriving DecidableEq, Repr

/-- The filename allow-list of collect_output_files
(job_server.py line 208). -/
def extensions_to_collect : List String :=
  [".log", ".xyz", ".molden", ".gbw", ".fchk", ".wfn", ".cube", ".prop"]

/-- name.endswith(ext) for any allow-listed extension; the suffix test is
taken on the character lists of the two strings. -/
def matchesExt (name : String) : Bool :=
  extensions_to_collect.any (fun ext => List.isSuffixOf ext.data name.data)

/-- The primary output filename (job_id).out recorded in output_files. -/
def outName (id : Nat) : String := toString id ++ ".out"

/-- The error-stream filename (job_id).err recorded in output_files. -/
def errName (id : Nat) : String := toString id ++ ".err"

/-- The persisted input filename (job_id).inp, excluded from collection for
orca jobs. -/
def inpName (id : Nat) : String := toString id ++ ".inp"

/-- The scratch glob loop of collect_output_files (job_server.py lines 210
to 221): skip non-files, skip the orca input copy, and for every name
matching the allow-list try shutil.copy — on success append the name, on
failure log and continue with the remaining files. Returns the list of
appended names in enumeration order. -/
def collectScratch (id : Nat) (program : String) : List ScratchFile → List String
  | [] => []
  | f :: rest =>
    if f.isFile = true then
      if f.name = inpName id ∧ program = "orca" then
        collectScratch id program rest
      else if matchesExt f.name = true ∧ f.copyOk = true then
        f.name :: collectScratch id program rest
      else
        collectScratch id program rest
    else
      collectScratch id program rest

/-- JobManager.collect_output_files (job_server.py lines 192 to 228) acting
on the job record. output_files is reset to empty; then, if the staging
.out file exists, shutil.move it (an unguarded move: on failure the
exception escapes the function with output_files still empty) and append
its name; then the scratch copy loop runs (per-file failures skipped); then,
if the staging .err file exists, shutil.move it (again unguarded: on
failure the exception escapes with the names appended so far retained) and
append its name. The second component is the escaped exception, if any. -/
def collect_output_files (id : Nat) (program : String) (stagingOut stagingErr : Bool)
    (env : RunEnv) (job : Job) : Job × Option String :=
  if stagingOut = true ∧ env.moveOutOk = false then
    ({ job with output_files := [] }, some "Error moving main output file")
  else
    let files1 := if stagingOut = true then [outName id] else []
    let files2 := files1 ++ collectScratch id program env.scratch
    if stagingErr = true ∧ env.moveErrOk = false then
      ({ job with output_files := files2 }, some "Error moving error file")
    else
      let files3 := files2 ++ (if stagingErr = true then [errName id] else [])
      ({ job with output_files := files3 }, none)

/-- Existence of the staging .out/.err files after the stream persistence
of job_server.py lines 151 to 158 ran: for an orca job with non-empty
stdout the .out file was just written (and the .err file too when stderr is
also non-empty); otherwise only a pre-existing staging file (for qchem, one
the external program wrote) counts. -/
def stagingAfterRun (program stdout stderr : String) (env : RunEnv) : Bool × Bool :=
  if program = "orca" ∧ stdout ≠ "" then
    (true, if stderr ≠ "" then true else env.preErr)
  else
    (env.preOut, env.preErr)

/-- The error string of the non-zero exit branch (job_server.py lines 166
to 168). -/
def returnCodeError (code : Int) (stdout stderr : String) : String :=
  "Return code: " ++ toString code ++ "\nStdout:\n" ++ stdout ++ "\nStderr:\n" ++ stderr

/-- The error string of the TimeoutExpired branch (job_server.py line 176). -/
def timeoutError : String := "Job execution timed out."

/-- The tail of run_job after subprocess.run returns or raises
(job_server.py lines 143 to 183): on exit code 0 the status becomes
completed and collect_output_files runs — if collection raises, the
catch-all handler turns the status into failed, keeping the output_files
appended so far; on a non-zero exit code the status becomes failed with the
diagnostic error; TimeoutExpired and any other exception also fail the job.
Every branch sets completed_at. -/
def finishJob (job : Job) (r : SubprocResult) (env : RunEnv) (t : Nat) : Job :=
  match r with
  | SubprocResult.done code stdout stderr =>
    let staging := stagingAfterRun job.program stdout stderr env
    if code = 0 then
      let res := collect_output_files job.id job.program staging.1 staging.2 env
        { job with status := Status.completed }
      if res.2 = none then
        { res.1 with completed_at := some t }
      else
        { res.1 with status := Status.failed, error := res.2, completed_at := some t }
    else
      { job with status := Status.failed,
                 error := some (returnCodeError code stdout stderr),
                 completed_at := some t }
  | SubprocResult.timedOut =>
    { job with status := Status.failed, error := some timeoutError, completed_at := some t }
  | SubprocResult.raised msg =>
    { job with status := Status.failed, error := some msg, completed_at := some t }

/-- The terminal part of a run_job worker thread: the job record is updated
by the epilogue and, in the finally block under the lock, running_jobs is
decremented (job_server.py lines 185 to 187). The trailing
self.process_queue() call is a separate step. -/
def finish_run (st : MState) (j : Nat) (r : SubprocResult) (env : RunEnv) (t : Nat) : MState :=
  { st with inflight := st.inflight.erase j,
            running_jobs := st.running_jobs - 1,
            jobs := updateJob st.jobs j (fun job => finishJob job r env t) }

/-- The atomic steps of the job manager: a submission (possibly failing at
the input write), one process_queue call, the begin of an admitted run_job
thread, and the end of an inflight run_job thread. -/
inductive Step (cfg : Config) : MState → MState → Prop
  | submit (st : MState) (fs : FS) (name program input_content : String)
      (writeOk : Bool) (t : Nat) :
      Step cfg st (submit_job st fs name program input_content writeOk t).1
  | tryAdmit (st : MState) : Step cfg st (process_queue cfg st)
  | start (st : MState) (j t : Nat) (h : j ∈ st.admitted) :
      Step cfg st (start_run st j t)
  | terminate (st : MState) (j : Nat) (r : SubprocResult) (env : RunEnv) (t : Nat)
      (h : j ∈ st.inflight) :
      Step cfg st (finish_run st j r env t)

/-- States reachable from the freshly constructed JobManager. -/
inductive Reachable (cfg : Config) : MState → Prop
  | init : Reachable cfg initState
  | step {st st' : MState} : Reachable cfg st → Step cfg st st' → Reachable cfg st'

/-- The summary dict built by list_jobs_route (job_server.py lines 277 to
287): every field of the job record except input_content, error and
output_files. -/
structure JobSummary where
  id : Nat
  name : String
  program : String
  status : Status
  submitted_at : Nat
  started_at : Option Nat
  completed_at : Option Nat
deriving DecidableEq, Repr

/-- Projection of a job record to its summary. -/
def summarize (j : Job) : JobSummary :=
  { id := j.id, name := j.name, program := j.program, status := j.status,
    submitted_at := j.submitted_at, started_at := j.started_at,
    completed_at := j.completed_at }

/-- The comparator of sorted(jobs.values(), key=submitted_at, reverse=True):
newest submission first. -/
def byDescTime : Job → Job → Prop := fun a b => b.submitted_at ≤ a.submitted_at

instance : DecidableRel byDescTime := fun _ _ => Nat.decLe _ _

instance : IsTotal Job byDescTime := ⟨fun a b => Nat.le_total b.submitted_at a.submitted_at⟩

instance : IsTrans Job byDescTime := ⟨fun _ _ _ h1 h2 => Nat.le_trans h2 h1⟩

/-- list_jobs_route (job_server.py lines 270 to 289): sort all job records
by submitted_at, newest first (Python sorted is a stable sort; with the
reverse flag it is a stable sort under the reversed comparator), and emit
one summary per record. -/
def list_jobs (jobs : List Job) : List JobSummary :=
  (List.insertionSort byDescTime jobs).map summarize

/-! ### Basic lemmas about the filesystem fragment and the jobs map -/

theorem fsRead_fsWrite_same (fs : FS) (p c : String) :
    fsRead (fsWrite fs p c) p = some c := by
  simp [fsWrite, fsRead]

theorem fsRead_fsWrite_ne (fs : FS) (p q c : String) (h : p ≠ q) :
    fsRead (fsWrite fs p c) q = fsRead fs q := by
  simp [fsWrite, fsRead, h]

theorem string_append_right_ne (a b c : String) (h : b.data ≠ c.data) :
    a ++ b ≠ a ++ c := by
  intro hab
  apply h
  have hd : (a ++ b).data = (a ++ c).data := congrArg String.data hab
  simpa using hd

theorem outPathS_ne_errPathS (id : String) : outPathS id ≠ errPathS id := by
  unfold outPathS errPathS
  exact string_append_right_ne _ _ _ (by decide)

theorem keys_updateJob (m : List (Nat × Job)) (id : Nat) (f : Job → Job) :
    (updateJob m id f).map Prod.fst = m.map Prod.fst := by
  induction m with
  | nil => rfl
  | cons p rest ih =>
    simp only [updateJob, List.map_cons] at *
    by_cases h : p.1 = id <;> simp [h, ih]

/-! ### Lemmas about collection and the run_job epilogue -/

/-- The full list of names collected when no staging move fails. -/
def collectedNoThrow (id : Nat) (program : String) (so se : Bool) (env : RunEnv) : List String :=
  (if so = true then [outName id] else [])
    ++ collectScratch id program env.scratch
    ++ (if se = true then [errName id] else [])

theorem collect_no_throw (id : Nat) (prog : String) (so se : Bool) (env : RunEnv) (job : Job)
    (h1 : so = true → env.moveOutOk = true) (h2 : se = true → env.moveErrOk = true) :
    collect_output_files id prog so se env job =
      ({ job with output_files := collectedNoThrow id prog so se env }, none) := by
  have hof : ¬ (so = true ∧ env.moveOutOk = false) := by
    rintro ⟨h, h'⟩; rw [h1 h] at h'; cases h'
  have hef : ¬ (se = true ∧ env.moveErrOk = false) := by
    rintro ⟨h, h'⟩; rw [h2 h] at h'; cases h'
  unfold collect_output_files collectedNoThrow
  rw [if_neg hof, if_neg hef]

theorem collect_fields (id : Nat) (prog : String) (so se : Bool) (env : RunEnv) (job : Job) :
    ((collect_output_files id prog so se env job).1.status = job.status)
    ∧ ((collect_output_files id prog so se env job).1.completed_at = job.completed_at)
    ∧ ((collect_output_files id prog so se env job).1.id = job.id) := by
  unfold collect_output_files
  dsimp only
  split
  · exact ⟨rfl, rfl, rfl⟩
  · split
    · exact ⟨rfl, rfl, rfl⟩
    · exact ⟨rfl, rfl, rfl⟩

/-- Every branch of the run_job epilogue sets completed_at
(job_server.py lines 172, 177, 182). -/
theorem finishJob_completed_at (job : Job) (r : SubprocResult) (env : RunEnv) (t : Nat) :
    (finishJob job r env t).completed_at = some t := by
  cases r with
  | done code stdout stderr =>
    simp only [finishJob]
    split
    · split <;> rfl
    · rfl
  | timedOut => rfl
  | raised msg => rfl

/-- The run_job epilogue always ends in a terminal status. -/
theorem finishJob_status_terminal (job : Job) (r : SubprocResult) (env : RunEnv) (t : Nat) :
    (finishJob job r env t).status = Status.completed
    ∨ (finishJob job r env t).status = Status.failed := by
  cases r with
  | done code stdout stderr =>
    simp only [finishJob]
    split
    · split
      · left
        exact (collect_fields job.id job.program
          (stagingAfterRun job.program stdout stderr env).1
          (stagingAfterRun job.program stdout stderr env).2 env
          { job with status := Status.completed }).1
      · right; rfl
    · right; rfl
  | timedOut => right; rfl
  | raised msg => right; rfl

/-- Failure outcomes of run_job that never reach collect_output_files:
a non-zero exit code, TimeoutExpired, or any exception raised while
preparing or launching the subprocess. -/
def bypassesCollect : SubprocResult → Prop
  | SubprocResult.done code _ _ => code ≠ 0
  | SubprocResult.timedOut => True
  | SubprocResult.raised _ => True

/-- On the failure outcomes that bypass collection, the epilogue sets the
status to failed and leaves output_files untouched. -/
theorem finishJob_bypass (job : Job) (r : SubprocResult) (env : RunEnv) (t : Nat)
    (h : bypassesCollect r) :
    (finishJob job r env t).status = Status.failed
    ∧ (finishJob job r env t).output_files = job.output_files := by
  cases r with
  | done code stdout stderr =>
    have hc : ¬ code = 0 := h
    simp only [finishJob]
    rw [if_neg hc]
    exact ⟨rfl, rfl⟩
  | timedOut => exact ⟨rfl, rfl⟩
  | raised msg => exact ⟨rfl, rfl⟩

/-- Exit code 0 with no staging-move failure: the job completes and
output_files is the full collected list. -/
theorem finishJob_exit0_ok (job : Job) (stdout stderr : String) (env : RunEnv) (t : Nat)
    (h1 : (stagingAfterRun job.program stdout stderr env).1 = true → env.moveOutOk = true)
    (h2 : (stagingAfterRun job.program stdout stderr env).2 = true → env.moveErrOk = true) :
    finishJob job (SubprocResult.done 0 stdout stderr) env t =
      { job with status := Status.completed, completed_at := some t,
                 output_files := collectedNoThrow job.id job.program
                   (stagingAfterRun job.program stdout stderr env).1
                   (stagingAfterRun job.program stdout stderr env).2 env } := by
  simp [finishJob, collect_no_throw _ _ _ _ _ _ h1 h2]

/-! ### The inductive invariant of the job manager -/

/-- Where a job record with a given status can sit relative to the queue
and the worker-thread pools, and which record fields are still unset. -/
def Phase (st : MState) (id : Nat) (j : Job) : Prop :=
  (j.status = Status.queued →
    ((id ∈ st.job_queue ∨ id ∈ st.admitted) ∧ id ∉ st.inflight
      ∧ j.completed_at = none ∧ j.output_files = []))
  ∧ (j.status = Status.running →
    (id ∈ st.inflight ∧ id ∉ st.job_queue ∧ id ∉ st.admitted
      ∧ j.completed_at = none ∧ j.output_files = []))
  ∧ (j.status = Status.completed →
    (id ∉ st.job_queue ∧ id ∉ st.admitted ∧ id ∉ st.inflight ∧ j.completed_at ≠ none))
  ∧ (j.status = Status.failed →
    (id ∉ st.job_queue ∧ id ∉ st.admitted ∧ id ∉ st.inflight ∧ j.completed_at ≠ none))

/-- The inductive invariant preserved by every step of the manager. -/
structure ManagerInv (cfg : Config) (st : MState) : Prop where
  bound : ∀ p ∈ st.jobs, p.1 < st.nextId
  keysNodup : (st.jobs.map Prod.fst).Nodup
  counts : st.admitted.length + st.inflight.length ≤ st.running_jobs
  ceiling : st.running_jobs ≤ cfg.max_concurrent_jobs
  inflightNodup : st.inflight.Nodup
  admittedNodup : st.admitted.Nodup
  queueNodup : st.job_queue.Nodup
  disjQA : ∀ id ∈ st.admitted, id ∉ st.job_queue
  present : ∀ id, (id ∈ st.job_queue ∨ id ∈ st.admitted ∨ id ∈ st.inflight) →
    id ∈ st.jobs.map Prod.fst
  phase : ∀ p ∈ st.jobs, Phase st p.1 p.2

theorem pool_lt {cfg : Config} {st : MState} (h : ManagerInv cfg st) (id : Nat)
    (hid : id ∈ st.job_queue ∨ id ∈ st.admitted ∨ id ∈ st.inflight) : id < st.nextId := by
  rcases List.mem_map.mp (h.present id hid) with ⟨p, hp, hfst⟩
  exact hfst ▸ h.bound p hp

theorem mem_updateJob {m : List (Nat × Job)} {id : Nat} {f : Job → Job} {p : Nat × Job}
    (hp : p ∈ updateJob m id f) :
    (∃ q, q ∈ m ∧ q.1 = id ∧ p = (q.1, f q.2)) ∨ (∃ q, q ∈ m ∧ q.1 ≠ id ∧ p = q) := by
  rcases List.mem_map.mp hp with ⟨q, hq, hqe⟩
  by_cases hcase : q.1 = id
  · left
    refine ⟨q, hq, hcase, ?_⟩
    rw [← hqe]
    simp [hcase]
  · right
    refine ⟨q, hq, hcase, ?_⟩
    rw [← hqe]
    simp [hcase]

/-- A record whose id is in the admitted pool is still queued. -/
theorem status_of_admitted {cfg : Config} {st : MState} (h : ManagerInv cfg st)
    {p : Nat × Job} (hp : p ∈ st.jobs) (hadm : p.1 ∈ st.admitted) :
    p.2.status = Status.queued := by
  rcases hph : p.2.status with _ | _ | _ | _
  · rfl
  · exact absurd hadm ((h.phase p hp).2.1 hph).2.2.1.elim
  · exact absurd hadm ((h.phase p hp).2.2.1 hph).2.1.elim
  · exact absurd hadm ((h.phase p hp).2.2.2 hph).2.1.elim

/-- A record whose id is in the inflight pool is running. -/
theorem status_of_inflight {cfg : Config} {st : MState} (h : ManagerInv cfg st)
    {p : Nat × Job} (hp : p ∈ st.jobs) (hinf : p.1 ∈ st.inflight) :
    p.2.status = Status.running := by
  rcases hph : p.2.status with _ | _ | _ | _
  · exact absurd hinf ((h.phase p hp).1 hph).2.1.elim
  · rfl
  · exact absurd hinf ((h.phase p hp).2.2.1 hph).2.2.1.elim
  · exact absurd hinf ((h.phase p hp).2.2.2 hph).2.2.1.elim

theorem inv_init (cfg : Config) : ManagerInv cfg initState := by
  refine ⟨?_, ?_, ?_, ?_, ?_, ?_, ?_, ?_, ?_, ?_⟩ <;> simp [initState]

theorem key_lt {cfg : Config} {st : MState} (h : ManagerInv cfg st) {id : Nat}
    (hid : id ∈ st.jobs.map Prod.fst) : id < st.nextId := by
  rcases List.mem_map.mp hid with ⟨p, hp, rfl⟩
  exact h.bound p hp

theorem inv_submit {cfg : Config} {st : MState} (h : ManagerInv cfg st)
    (fs : FS) (name program input_content : String) (writeOk : Bool) (t : Nat) :
    ManagerInv cfg (submit_job st fs name program input_content writeOk t).1 := by
  cases writeOk with
  | false => exact h
  | true =>
    show ManagerInv cfg
      { st with jobs := st.jobs ++ [(st.nextId, mkJob st.nextId name program input_content t)],
                job_queue := st.job_queue ++ [st.nextId],
                nextId := st.nextId + 1 }
    refine ⟨?_, ?_, ?_, ?_, ?_, ?_, ?_, ?_, ?_, ?_⟩
    · intro p hp
      rcases List.mem_append.mp hp with hold | hnew
      · exact Nat.lt_trans (h.bound p hold) (Nat.lt_succ_self _)
      · rcases List.mem_singleton.mp hnew with rfl
        exact Nat.lt_succ_self _
    · show ((st.jobs ++ [(st.nextId, mkJob st.nextId name program input_content t)]).map
        Prod.fst).Nodup
      rw [List.map_append]
      refine List.nodup_append.mpr ⟨h.keysNodup, List.nodup_singleton _, ?_⟩
      intro a ha hb
      rcases List.mem_singleton.mp hb with rfl
      exact absurd (key_lt h ha) (Nat.lt_irrefl _)
    · exact h.counts
    · exact h.ceiling
    · exact h.inflightNodup
    · exact h.admittedNodup
    · show (st.job_queue ++ [st.nextId]).Nodup
      refine List.nodup_append.mpr ⟨h.queueNodup, List.nodup_singleton _, ?_⟩
      intro a ha hb
      rcases List.mem_singleton.mp hb with rfl
      exact absurd (pool_lt h _ (Or.inl ha)) (Nat.lt_irrefl _)
    · intro id hadm hq
      rcases List.mem_append.mp hq with hq' | hq'
      · exact h.disjQA id hadm hq'
      · rcases List.mem_singleton.mp hq' with rfl
        exact absurd (pool_lt h _ (Or.inr (Or.inl hadm))) (Nat.lt_irrefl _)
    · intro id hid
      rw [List.map_append]
      rcases hid with hq | hrest
      · rcases List.mem_append.mp hq with hq' | hq'
        · exact List.mem_append_left _ (h.present id (Or.inl hq'))
        · rcases List.mem_singleton.mp hq' with rfl
          exact List.mem_append_right _ (by simp)
      · exact List.mem_append_left _ (h.present id (Or.inr hrest))
    · intro p hp
      rcases List.mem_append.mp hp with hold | hnew
      · have ph := h.phase p hold
        have hlt : p.1 < st.nextId := h.bound p hold
        have hnotnew : p.1 ∉ ([st.nextId] : List Nat) := by
          intro hc
          rcases List.mem_singleton.mp hc with hc
          exact absurd (hc ▸ hlt) (Nat.lt_irrefl _)
        refine ⟨?_, ?_, ?_, ?_⟩
        · intro hstat
          rcases ph.1 hstat with ⟨hpool, hninf, hca, hof⟩
          refine ⟨?_, hninf, hca, hof⟩
          rcases hpool with hq | ha
          · exact Or.inl (List.mem_append_left _ hq)
          · exact Or.inr ha
        · intro hstat
          rcases ph.2.1 hstat with ⟨hinf, hnq, hna, hca, hof⟩
          refine ⟨hinf, ?_, hna, hca, hof⟩
          intro hc
          rcases List.mem_append.mp hc with hc' | hc'
          · exact hnq hc'
          · exact hnotnew hc'
        · intro hstat
          rcases ph.2.2.1 hstat with ⟨hnq, hna, hninf, hca⟩
          refine ⟨?_, hna, hninf, hca⟩
          intro hc
          rcases List.mem_append.mp hc with hc' | hc'
          · exact hnq hc'
          · exact hnotnew hc'
        · intro hstat
          rcases ph.2.2.2 hstat with ⟨hnq, hna, hninf, hca⟩
          refine ⟨?_, hna, hninf, hca⟩
          intro hc
          rcases List.mem_append.mp hc with hc' | hc'
          · exact hnq hc'
          · exact hnotnew hc'
      · rcases List.mem_singleton.mp hnew with rfl
        refine ⟨?_, ?_, ?_, ?_⟩
        · intro _
          refine ⟨Or.inl (List.mem_append_right _ (by simp)), ?_, rfl, rfl⟩
          intro hc
          exact absurd (pool_lt h _ (Or.inr (Or.inr hc))) (Nat.lt_irrefl _)
        · intro hstat
          exact absurd hstat (by simp [mkJob])
        · intro hstat
          exact absurd hstat (by simp [mkJob])
        · intro hstat
          exact absurd hstat (by simp [mkJob])

theorem inv_process_queue {cfg : Config} {st : MState} (h : ManagerInv cfg st) :
    ManagerInv cfg (process_queue cfg st) := by
  by_cases hcap : cfg.max_concurrent_jobs ≤ st.running_jobs
  · rw [process_queue, if_pos hcap]
    exact h
  · cases hq : st.job_queue with
    | nil =>
      rw [process_queue, if_neg hcap, hq]
      exact h
    | cons j rest =>
      rw [process_queue, if_neg hcap, hq]
      show ManagerInv cfg
        { st with job_queue := rest,
                  running_jobs := st.running_jobs + 1,
                  admitted := j :: st.admitted }
      have hjq : j ∈ st.job_queue := by rw [hq]; exact List.mem_cons_self j rest
      have hcap' : st.running_jobs < cfg.max_concurrent_jobs := Nat.lt_of_not_le hcap
      have hjrest : j ∉ rest := by
        have hnd := h.queueNodup
        rw [hq] at hnd
        exact (List.nodup_cons.mp hnd).1
      refine ⟨?_, ?_, ?_, ?_, ?_, ?_, ?_, ?_, ?_, ?_⟩
      · exact h.bound
      · exact h.keysNodup
      · have := h.counts
        simp only [List.length_cons]
        omega
      · show st.running_jobs + 1 ≤ cfg.max_concurrent_jobs
        omega
      · exact h.inflightNodup
      · refine List.nodup_cons.mpr ⟨?_, h.admittedNodup⟩
        intro hc
        exact h.disjQA j hc hjq
      · have hnd := h.queueNodup
        rw [hq] at hnd
        exact hnd.of_cons
      · intro id hadm hr
        rcases List.mem_cons.mp hadm with rfl | hadm'
        · exact hjrest hr
        · have := h.disjQA id hadm'
          rw [hq] at this
          exact this (List.mem_cons_of_mem _ hr)
      · intro id hid
        apply h.present
        rcases hid with hr | hadm | hinf
        · left
          rw [hq]
          exact List.mem_cons_of_mem _ hr
        · rcases List.mem_cons.mp hadm with rfl | hadm'
          · exact Or.inl hjq
          · exact Or.inr (Or.inl hadm')
        · exact Or.inr (Or.inr hinf)
      · intro p hp
        have ph := h.phase p hp
        refine ⟨?_, ?_, ?_, ?_⟩
        · intro hstat
          rcases ph.1 hstat with ⟨hpool, hninf, hca, hof⟩
          refine ⟨?_, hninf, hca, hof⟩
          rcases hpool with hqmem | hadm
          · rw [hq] at hqmem
            rcases List.mem_cons.mp hqmem with heq | hr
            · exact Or.inr (heq ▸ List.mem_cons_self _ _)
            · exact Or.inl hr
          · exact Or.inr (List.mem_cons_of_mem _ hadm)
        · intro hstat
          rcases ph.2.1 hstat with ⟨hinf, hnq, hna, hca, hof⟩
          rw [hq] at hnq
          refine ⟨hinf, ?_, ?_, hca, hof⟩
          · intro hc
            exact hnq (List.mem_cons_of_mem _ hc)
          · intro hc
            rcases List.mem_cons.mp hc with heq | hc'
            · exact hnq (heq ▸ List.mem_cons_self _ _)
            · exact hna hc'
        · intro hstat
          rcases ph.2.2.1 hstat with ⟨hnq, hna, hninf, hca⟩
          rw [hq] at hnq
          refine ⟨?_, ?_, hninf, hca⟩
          · intro hc
            exact hnq (List.mem_cons_of_mem _ hc)
          · intro hc
            rcases List.mem_cons.mp hc with heq | hc'
            · exact hnq (heq ▸ List.mem_cons_self _ _)
            · exact hna hc'
        · intro hstat
          rcases ph.2.2.2 hstat with ⟨hnq, hna, hninf, hca⟩
          rw [hq] at hnq
          refine ⟨?_, ?_, hninf, hca⟩
          · intro hc
            exact hnq (List.mem_cons_of_mem _ hc)
          · intro hc
            rcases List.mem_cons.mp hc with heq | hc'
            · exact hnq (heq ▸ List.mem_cons_self _ _)
            · exact hna hc'

theorem inv_start {cfg : Config} {st : MState} (h : ManagerInv cfg st) {j : Nat}
    (hj : j ∈ st.admitted) (t : Nat) :
    ManagerInv cfg (start_run st j t) := by
  obtain ⟨q0, hq0, hq0j⟩ := List.mem_map.mp (h.present j (Or.inr (Or.inl hj)))
  have hq0stat : q0.2.status = Status.queued :=
    status_of_admitted h hq0 (by rw [hq0j]; exact hj)
  have hjninf : j ∉ st.inflight := by
    rw [← hq0j]
    exact ((h.phase q0 hq0).1 hq0stat).2.1
  have hjnq : j ∉ st.job_queue := h.disjQA j hj
  refine ⟨?_, ?_, ?_, ?_, ?_, ?_, ?_, ?_, ?_, ?_⟩ <;> dsimp only [start_run]
  · intro p hp
    rcases mem_updateJob hp with ⟨q, hq, _, rfl⟩ | ⟨q, hq, _, rfl⟩
    · exact h.bound q hq
    · exact h.bound p hq
  · show ((updateJob st.jobs j _).map Prod.fst).Nodup
    rw [keys_updateJob]
    exact h.keysNodup
  · show (st.admitted.erase j).length + (j :: st.inflight).length ≤ st.running_jobs
    rw [List.length_erase_of_mem hj, List.length_cons]
    have hc := h.counts
    have hpos := List.length_pos_of_mem hj
    omega
  · exact h.ceiling
  · exact List.nodup_cons.mpr ⟨hjninf, h.inflightNodup⟩
  · exact h.admittedNodup.erase j
  · exact h.queueNodup
  · intro id hadm hq
    exact h.disjQA id (List.erase_subset _ _ hadm) hq
  · intro id hid
    show id ∈ (updateJob st.jobs j _).map Prod.fst
    rw [keys_updateJob]
    apply h.present
    rcases hid with hqm | hadm | hinf
    · exact Or.inl hqm
    · exact Or.inr (Or.inl (List.erase_subset _ _ hadm))
    · rcases List.mem_cons.mp hinf with rfl | hinf'
      · exact Or.inr (Or.inl hj)
      · exact Or.inr (Or.inr hinf')
  · intro p hp
    rcases mem_updateJob hp with ⟨q, hq, hqid, rfl⟩ | ⟨q, hq, hne, rfl⟩
    · subst hqid
      have hqstat : q.2.status = Status.queued := status_of_admitted h hq hj
      have hph := (h.phase q hq).1 hqstat
      refine ⟨?_, ?_, ?_, ?_⟩
      · intro hstat
        simp at hstat
      · intro _
        refine ⟨List.mem_cons_self _ _, hjnq, ?_, hph.2.2.1, hph.2.2.2⟩
        intro hc
        exact ((List.Nodup.mem_erase_iff h.admittedNodup).mp hc).1 rfl
      · intro hstat
        simp at hstat
      · intro hstat
        simp at hstat
    · have ph := h.phase p hq
      refine ⟨?_, ?_, ?_, ?_⟩
      · intro hstat
        rcases ph.1 hstat with ⟨hpool, hninf, hca, hof⟩
        refine ⟨?_, ?_, hca, hof⟩
        · rcases hpool with hqm | hadm
          · exact Or.inl hqm
          · exact Or.inr ((List.mem_erase_of_ne hne).mpr hadm)
        · intro hc
          rcases List.mem_cons.mp hc with heq | hc'
          · exact hne heq
          · exact hninf hc'
      · intro hstat
        rcases ph.2.1 hstat with ⟨hinf, hnq, hna, hca, hof⟩
        refine ⟨List.mem_cons_of_mem _ hinf, hnq, ?_, hca, hof⟩
        intro hc
        exact hna (List.erase_subset _ _ hc)
      · intro hstat
        rcases ph.2.2.1 hstat with ⟨hnq, hna, hninf, hca⟩
        refine ⟨hnq, ?_, ?_, hca⟩
        · intro hc
          exact hna (List.erase_subset _ _ hc)
        · intro hc
          rcases List.mem_cons.mp hc with heq | hc'
          · exact hne heq
          · exact hninf hc'
      · intro hstat
        rcases ph.2.2.2 hstat with ⟨hnq, hna, hninf, hca⟩
        refine ⟨hnq, ?_, ?_, hca⟩
        · intro hc
          exact hna (List.erase_subset _ _ hc)
        · intro hc
          rcases List.mem_cons.mp hc with heq | hc'
          · exact hne heq
          · exact hninf hc'

theorem inv_finish {cfg : Config} {st : MState} (h : ManagerInv cfg st) {j : Nat}
    (hj : j ∈ st.inflight) (r : SubprocResult) (env : RunEnv) (t : Nat) :
    ManagerInv cfg (finish_run st j r env t) := by
  obtain ⟨q0, hq0, hq0j⟩ := List.mem_map.mp (h.present j (Or.inr (Or.inr hj)))
  have hq0stat : q0.2.status = Status.running :=
    status_of_inflight h hq0 (by rw [hq0j]; exact hj)
  refine ⟨?_, ?_, ?_, ?_, ?_, ?_, ?_, ?_, ?_, ?_⟩ <;> dsimp only [finish_run]
  · intro p hp
    rcases mem_updateJob hp with ⟨q, hq, _, rfl⟩ | ⟨q, hq, _, rfl⟩
    · exact h.bound q hq
    · exact h.bound p hq
  · rw [keys_updateJob]
    exact h.keysNodup
  · rw [List.length_erase_of_mem hj]
    have hc := h.counts
    have hpos := List.length_pos_of_mem hj
    omega
  · have := h.ceiling
    omega
  · exact h.inflightNodup.erase j
  · exact h.admittedNodup
  · exact h.queueNodup
  · intro id hadm hqm
    exact h.disjQA id hadm hqm
  · intro id hid
    rw [keys_updateJob]
    apply h.present
    rcases hid with hqm | hadm | hinf
    · exact Or.inl hqm
    · exact Or.inr (Or.inl hadm)
    · exact Or.inr (Or.inr (List.erase_subset _ _ hinf))
  · intro p hp
    rcases mem_updateJob hp with ⟨q, hq, hqid, rfl⟩ | ⟨q, hq, hne, rfl⟩
    · subst hqid
      have hqstat : q.2.status = Status.running := status_of_inflight h hq hj
      have hph := (h.phase q hq).2.1 hqstat
      have hterm := finishJob_status_terminal q.2 r env t
      have hca := finishJob_completed_at q.2 r env t
      have hninf : q.1 ∉ st.inflight.erase q.1 := fun hc =>
        ((List.Nodup.mem_erase_iff h.inflightNodup).mp hc).1 rfl
      refine ⟨?_, ?_, ?_, ?_⟩
      · intro hstat
        rcases hterm with ht | ht <;> rw [hstat] at ht <;> exact Status.noConfusion ht
      · intro hstat
        rcases hterm with ht | ht <;> rw [hstat] at ht <;> exact Status.noConfusion ht
      · intro _
        exact ⟨hph.2.1, hph.2.2.1, hninf, by rw [hca]; simp⟩
      · intro _
        exact ⟨hph.2.1, hph.2.2.1, hninf, by rw [hca]; simp⟩
    · have ph := h.phase p hq
      refine ⟨?_, ?_, ?_, ?_⟩
      · intro hstat
        rcases ph.1 hstat with ⟨hpool, hninf, hca, hof⟩
        exact ⟨hpool, fun hc => hninf (List.erase_subset _ _ hc), hca, hof⟩
      · intro hstat
        rcases ph.2.1 hstat with ⟨hinf, hnq, hna, hca, hof⟩
        exact ⟨(List.mem_erase_of_ne hne).mpr hinf, hnq, hna, hca, hof⟩
      · intro hstat
        rcases ph.2.2.1 hstat with ⟨hnq, hna, hninf, hca⟩
        exact ⟨hnq, hna, fun hc => hninf (List.erase_subset _ _ hc), hca⟩
      · intro hstat
        rcases ph.2.2.2 hstat with ⟨hnq, hna, hninf, hca⟩
        exact ⟨hnq, hna, fun hc => hninf (List.erase_subset _ _ hc), hca⟩

/-- The invariant is preserved by every step. -/
theorem inv_step {cfg : Config} {st st' : MState} (h : ManagerInv cfg st)
    (hs : Step cfg st st') : ManagerInv cfg st' := by
  cases hs with
  | submit fs name program input_content writeOk t =>
    exact inv_submit h fs name program input_content writeOk t
  | tryAdmit => exact inv_process_queue h
  | start j t hj => exact inv_start h hj t
  | terminate j r env t hj => exact inv_finish h hj r env t

/-- Every reachable state satisfies the invariant. -/
theorem reachable_inv {cfg : Config} {st : MState} (h : Reachable cfg st) :
    ManagerInv cfg st := by
  induction h with
  | init => exact inv_init cfg
  | step _ hs ih => exact inv_step ih hs

/-! ### Concrete reachable states used to instantiate the theorems -/

def cfg0 : Config := { max_concurrent_jobs := 2 }

/-- An environment where the staging error-file move fails and the scratch
directory is empty. -/
def envBad : RunEnv :=
  { preOut := false, preErr := false, moveOutOk := true, moveErrOk := false, scratch := [] }

def st1 : MState := (submit_job initState [] "water opt" "orca" "! HF def2-SVP" true 0).1

def st2 : MState := process_queue cfg0 st1

def st3 : MState := start_run st2 0 1

def stBad : MState :=
  finish_run st3 0 (SubprocResult.done 0 "orca output text" "orca stderr text") envBad 2

theorem reach_st1 : Reachable cfg0 st1 :=
  Reachable.step Reachable.init
    (Step.submit initState [] "water opt" "orca" "! HF def2-SVP" true 0)

theorem reach_st2 : Reachable cfg0 st2 :=
  Reachable.step reach_st1 (Step.tryAdmit st1)

theorem reach_st3 : Reachable cfg0 st3 :=
  Reachable.step reach_st2 (Step.start st2 0 1 (by decide))

theorem reach_stBad : Reachable cfg0 stBad :=
  Reachable.step reach_st3
    (Step.terminate st3 0 (SubprocResult.done 0 "orca output text" "orca stderr text")
      envBad 2 (by decide))

/-- The job record of stBad: submitted, started, then finished with exit
code 0 but a failing staging error-file move. -/
def jb1 : Job := mkJob 0 "water opt" "orca" "! HF def2-SVP" 0

def jb2 : Job := { jb1 with status := Status.running, started_at := some 1 }

def jbBad : Job :=
  finishJob jb2 (SubprocResult.done 0 "orca output text" "orca stderr text") envBad 2

/-! ### C1 -/

/-- Number of job records whose status is running. -/
def countRunning (m : List (Nat × Job)) : Nat :=
  (m.filter (fun p => decide (p.2.status = Status.running))).length

/-- C1: in every state reachable under submit, process_queue, job start and
job termination, the running_jobs counter, and with it the number of job
records in status running, never exceeds max_concurrent_jobs. -/
theorem running_never_exceeds_max (cfg : Config) (st : MState) (h : Reachable cfg st) :
    st.running_jobs ≤ cfg.max_concurrent_jobs
    ∧ countRunning st.jobs ≤ cfg.max_concurrent_jobs := by
  have hinv := reachable_inv h
  refine ⟨hinv.ceiling, ?_⟩
  have key : (st.jobs.filter (fun p => decide (p.2.status = Status.running))).length
      ≤ st.inflight.length := by
    have hsub : ((st.jobs.filter (fun p => decide (p.2.status = Status.running))).map
        Prod.fst).Sublist (st.jobs.map Prod.fst) :=
      List.Sublist.map _ (List.filter_sublist st.jobs)
    have hnd := List.Nodup.sublist hsub hinv.keysNodup
    have hsubset : ((st.jobs.filter (fun p => decide (p.2.status = Status.running))).map
        Prod.fst) ⊆ st.inflight := by
      intro a ha
      rcases List.mem_map.mp ha with ⟨p, hp, rfl⟩
      have hmem := List.mem_filter.mp hp
      have hstat : p.2.status = Status.running := by simpa using hmem.2
      exact ((hinv.phase p hmem.1).2.1 hstat).1
    have hlen := List.Subperm.length_le (List.Nodup.subperm hnd hsubset)
    rw [List.length_map] at hlen
    exact hlen
  have hc := hinv.counts
  have hcl := hinv.ceiling
  unfold countRunning
  omega

/-- Instance of C1 at a concrete reachable state with one running job. -/
theorem running_never_exceeds_max_holds :
    st3.running_jobs ≤ cfg0.max_concurrent_jobs
    ∧ countRunning st3.jobs ≤ cfg0.max_concurrent_jobs :=
  running_never_exceeds_max cfg0 st3 reach_st3

/-! ### C5 -/

theorem process_queue_iterate (cfg : Config) : ∀ (n : Nat) (st : MState),
    (process_queue cfg)^[n] st =
      { st with
          job_queue := st.job_queue.drop
            (min n (min (cfg.max_concurrent_jobs - st.running_jobs) st.job_queue.length)),
          admitted := (st.job_queue.take
            (min n (min (cfg.max_concurrent_jobs - st.running_jobs)
              st.job_queue.length))).reverse ++ st.admitted,
          running_jobs := st.running_jobs
            + min n (min (cfg.max_concurrent_jobs - st.running_jobs)
                st.job_queue.length) } := by
  intro n
  induction n with
  | zero =>
    intro st
    simp
  | succ n ih =>
    intro st
    rw [Function.iterate_succ_apply]
    by_cases hcap : cfg.max_concurrent_jobs ≤ st.running_jobs
    · have h0 : cfg.max_concurrent_jobs - st.running_jobs = 0 := Nat.sub_eq_zero_of_le hcap
      rw [process_queue, if_pos hcap, ih st, h0]
      simp
    · cases hq : st.job_queue with
      | nil =>
        rw [process_queue, if_neg hcap, hq]
        dsimp only
        rw [ih st, hq]
        simp
      | cons j rest =>
        have hlt : st.running_jobs < cfg.max_concurrent_jobs := Nat.lt_of_not_le hcap
        rw [process_queue, if_neg hcap, hq]
        dsimp only
        rw [ih]
        dsimp only
        simp only [List.length_cons]
        have hM : min (n + 1) (min (cfg.max_concurrent_jobs - st.running_jobs)
            (rest.length + 1))
            = min n (min (cfg.max_concurrent_jobs - (st.running_jobs + 1)) rest.length) + 1 := by
          omega
        rw [hM]
        simp [List.reverse_cons, List.append_assoc, List.singleton_append]
        omega

/-- C5: under the registry lock, process_queue is a no-op whenever
running_jobs is at least max_concurrent_jobs or the queue is empty;
otherwise it removes exactly the head of the FIFO queue, increments
running_jobs by exactly one and starts the runner for that job; hence
repeated calls drain the queue in submission order up to the ceiling. -/
theorem process_queue_spec (cfg : Config) (st : MState) :
    ((cfg.max_concurrent_jobs ≤ st.running_jobs ∨ st.job_queue = []) →
      process_queue cfg st = st)
    ∧ (∀ j rest, st.running_jobs < cfg.max_concurrent_jobs → st.job_queue = j :: rest →
      process_queue cfg st =
        { st with job_queue := rest,
                  running_jobs := st.running_jobs + 1,
                  admitted := j :: st.admitted })
    ∧ (∀ n, (process_queue cfg)^[n] st =
        { st with
            job_queue := st.job_queue.drop
              (min n (min (cfg.max_concurrent_jobs - st.running_jobs)
                st.job_queue.length)),
            admitted := (st.job_queue.take
              (min n (min (cfg.max_concurrent_jobs - st.running_jobs)
                st.job_queue.length))).reverse ++ st.admitted,
            running_jobs := st.running_jobs
              + min n (min (cfg.max_concurrent_jobs - st.running_jobs)
                  st.job_queue.length) }) := by
  refine ⟨?_, ?_, fun n => process_queue_iterate cfg n st⟩
  · intro hcase
    rcases hcase with hcap | hqe
    · rw [process_queue, if_pos hcap]
    · by_cases hcap : cfg.max_concurrent_jobs ≤ st.running_jobs
      · rw [process_queue, if_pos hcap]
      · rw [process_queue, if_neg hcap, hqe]
  · intro j rest hlt hq
    rw [process_queue, if_neg (Nat.not_le_of_lt hlt), hq]

/-- A registry with one running job and two queued ids. -/
def stQ : MState :=
  { jobs := [], job_queue := [5, 6], admitted := [], inflight := [],
    running_jobs := 1, nextId := 0 }

/-- Instance of C5 at a concrete state: one admission happens and the next
call is a no-op at the ceiling. -/
theorem process_queue_spec_holds :
    process_queue cfg0 stQ = { stQ with job_queue := [6], running_jobs := 2, admitted := [5] }
    ∧ process_queue cfg0 (process_queue cfg0 stQ) = process_queue cfg0 stQ := by
  constructor
  · exact (process_queue_spec cfg0 stQ).2.1 5 [6] (by decide) rfl
  · exact (process_queue_spec cfg0 (process_queue cfg0 stQ)).1 (Or.inl (by decide))

/-! ### C7 -/

/-- C7: in every reachable state, a job record has a non-null completed_at
exactly when its status is completed or failed; and every failure sub-case
of the run_job epilogue (non-zero exit, timeout, launch exception) as well
as the success case sets completed_at. -/
theorem completed_at_iff_terminal :
    (∀ (cfg : Config) (st : MState), Reachable cfg st → ∀ p ∈ st.jobs,
      (p.2.completed_at ≠ none
        ↔ (p.2.status = Status.completed ∨ p.2.status = Status.failed)))
    ∧ (∀ (job : Job) (r : SubprocResult) (env : RunEnv) (t : Nat),
      (finishJob job r env t).completed_at = some t) := by
  constructor
  · intro cfg st h p hp
    have ph := (reachable_inv h).phase p hp
    constructor
    · intro hne
      rcases hstat : p.2.status with _ | _ | _ | _
      · exact absurd (ph.1 hstat).2.2.1 hne
      · exact absurd (ph.2.1 hstat).2.2.2.1 hne
      · exact Or.inl rfl
      · exact Or.inr rfl
    · intro hterm
      rcases hterm with hstat | hstat
      · exact (ph.2.2.1 hstat).2.2.2
      · exact (ph.2.2.2 hstat).2.2.2
  · exact finishJob_completed_at

/-- Instance of C7 at the terminated job of stBad and at a timeout. -/
theorem completed_at_iff_terminal_holds :
    (jbBad.completed_at ≠ none
      ↔ (jbBad.status = Status.completed ∨ jbBad.status = Status.failed))
    ∧ (finishJob jb2 SubprocResult.timedOut envBad 5).completed_at = some 5 := by
  constructor
  · exact completed_at_iff_terminal.1 cfg0 stBad reach_stBad (0, jbBad)
      (List.mem_singleton.mpr rfl)
  · exact completed_at_iff_terminal.2 jb2 SubprocResult.timedOut envBad 5

/-! ### C4 -/

/-- C4: when the input write raises IOError, submit_job propagates the
error and the registry is unchanged: the fresh job id is neither in the
jobs map nor in the pending queue. -/
theorem submit_ioerror_is_atomic (cfg : Config) (st : MState) (fs : FS)
    (name program input_content : String) (t : Nat) (h : Reachable cfg st) :
    (submit_job st fs name program input_content false t).1 = st
    ∧ (∃ msg, (submit_job st fs name program input_content false t).2.2 = Except.error msg)
    ∧ st.nextId ∉ ((submit_job st fs name program input_content false t).1.jobs.map Prod.fst)
    ∧ st.nextId ∉ (submit_job st fs name program input_content false t).1.job_queue := by
  have hinv := reachable_inv h
  refine ⟨rfl, ⟨_, rfl⟩, ?_, ?_⟩
  · intro hc
    exact absurd (key_lt hinv hc) (Nat.lt_irrefl _)
  · intro hc
    exact absurd (pool_lt hinv _ (Or.inl hc)) (Nat.lt_irrefl _)

/-- Instance of C4: a failing submission against the registry st1. -/
theorem submit_ioerror_is_atomic_holds :
    (submit_job st1 [] "next job" "qchem" "input text" false 7).1 = st1
    ∧ (∃ msg, (submit_job st1 [] "next job" "qchem" "input text" false 7).2.2
        = Except.error msg)
    ∧ st1.nextId ∉ ((submit_job st1 [] "next job" "qchem" "input text" false 7).1.jobs.map
        Prod.fst)
    ∧ st1.nextId ∉ (submit_job st1 [] "next job" "qchem" "input text" false 7).1.job_queue :=
  submit_ioerror_is_atomic cfg0 st1 [] "next job" "qchem" "input text" 7 reach_st1

/-! ### C8 -/

/-- C8: after a successful submission the persisted input file
input/(job_id).inp reads back exactly the submitted input_content. -/
theorem input_round_trip (st : MState) (fs : FS)
    (name program input_content : String) (t : Nat) :
    fsRead (submit_job st fs name program input_content true t).2.1
      (inpPath st.nextId) = some input_content :=
  fsRead_fsWrite_same fs (inpPath st.nextId) input_content

/-! ### C2 -/

/-- C2 counterexample: in the job_server.py variant, an orca run with empty
stdout and non-empty stderr persists nothing — the stderr write is nested
under the stdout check — while the manager.py variant persists the stderr
stream. -/
theorem stderr_not_persisted_when_stdout_empty :
    fsRead (persist_streams_js "orca" "" "boom" [] "j7") (errPathS "j7") = none
    ∧ "boom" ≠ ""
    ∧ fsRead (persist_streams_mgr "" "boom" [] "j7") (errPathS "j7") = some "boom" := by
  refine ⟨by decide, by decide, by decide⟩

/-- C2 (amended): manager.py persists each non-empty stream independently
and in full; job_server.py persists stdout in full when it is non-empty,
persists stderr in full only when stdout is ALSO non-empty, and writes
nothing at all when stdout is empty. -/
theorem stream_persistence_characterization
    (stdout stderr : String) (fs : FS) (id : String) :
    ((stdout ≠ "" →
        fsRead (persist_streams_mgr stdout stderr fs id) (outPathS id) = some stdout)
      ∧ (stderr ≠ "" →
        fsRead (persist_streams_mgr stdout stderr fs id) (errPathS id) = some stderr))
    ∧ ((stdout ≠ "" →
        fsRead (persist_streams_js "orca" stdout stderr fs id) (outPathS id) = some stdout)
      ∧ (stdout ≠ "" → stderr ≠ "" →
        fsRead (persist_streams_js "orca" stdout stderr fs id) (errPathS id) = some stderr)
      ∧ (stdout = "" → persist_streams_js "orca" stdout stderr fs id = fs)) := by
  have hmgr : persist_streams_mgr stdout stderr fs id =
      (if stderr ≠ "" then
        fsWrite (if stdout ≠ "" then fsWrite fs (outPathS id) stdout else fs)
          (errPathS id) stderr
       else (if stdout ≠ "" then fsWrite fs (outPathS id) stdout else fs)) := rfl
  have hjs : persist_streams_js "orca" stdout stderr fs id =
      (if ("orca" : String) = "orca" ∧ stdout ≠ "" then
        (if stderr ≠ "" then fsWrite (fsWrite fs (outPathS id) stdout) (errPathS id) stderr
         else fsWrite fs (outPathS id) stdout)
       else fs) := rfl
  refine ⟨⟨?_, ?_⟩, ?_, ?_, ?_⟩
  · intro hso
    rw [hmgr]
    by_cases hse : stderr ≠ ""
    · rw [if_pos hse, if_pos hso,
        fsRead_fsWrite_ne _ _ _ _ (Ne.symm (outPathS_ne_errPathS id)),
        fsRead_fsWrite_same]
    · rw [if_neg hse, if_pos hso, fsRead_fsWrite_same]
  · intro hse
    rw [hmgr, if_pos hse, fsRead_fsWrite_same]
  · intro hso
    rw [hjs, if_pos (And.intro rfl hso)]
    by_cases hse : stderr ≠ ""
    · rw [if_pos hse,
        fsRead_fsWrite_ne _ _ _ _ (Ne.symm (outPathS_ne_errPathS id)),
        fsRead_fsWrite_same]
    · rw [if_neg hse, fsRead_fsWrite_same]
  · intro hso hse
    rw [hjs, if_pos (And.intro rfl hso), if_pos hse, fsRead_fsWrite_same]
  · intro hso
    rw [hjs, if_neg]
    rintro ⟨_, hc⟩
    exact hc hso

/-- Instance of the amended C2 on concrete streams. -/
theorem stream_persistence_characterization_holds :
    fsRead (persist_streams_mgr "" "warn" [] "id9") (errPathS "id9") = some "warn"
    ∧ fsRead (persist_streams_js "orca" "log text" "warn" [] "id9") (errPathS "id9")
        = some "warn" := by
  constructor
  · exact (stream_persistence_characterization "" "warn" [] "id9").1.2 (by decide)
  · exact (stream_persistence_characterization "log text" "warn" [] "id9").2.2.1
      (by decide) (by decide)

/-! ### C3 -/

/-- A copy failure removes exactly the failing file from the collected
names: the loop continues with the remaining files. -/
theorem collectScratch_skip (id : Nat) (program : String) (post : List ScratchFile)
    (f : ScratchFile) (hf : f.copyOk = false) : ∀ pre : List ScratchFile,
    collectScratch id program (pre ++ f :: post) = collectScratch id program (pre ++ post) := by
  intro pre
  induction pre with
  | nil =>
    simp only [List.nil_append, collectScratch]
    by_cases h1 : f.isFile = true
    · rw [if_pos h1]
      by_cases h2 : f.name = inpName id ∧ program = "orca"
      · rw [if_pos h2]
      · have h3 : ¬ (matchesExt f.name = true ∧ f.copyOk = true) := by
          rintro ⟨_, hc⟩
          rw [hf] at hc
          cases hc
        rw [if_neg h2, if_neg h3]
    · rw [if_neg h1]
  | cons g rest ih =>
    simp only [List.cons_append, collectScratch]
    by_cases h1 : g.isFile = true
    · rw [if_pos h1, if_pos h1]
      by_cases h2 : g.name = inpName id ∧ program = "orca"
      · rw [if_pos h2, if_pos h2]
        exact ih
      · rw [if_neg h2, if_neg h2]
        by_cases h3 : matchesExt g.name = true ∧ g.copyOk = true
        · rw [if_pos h3, if_pos h3]
          exact congrArg (g.name :: ·) ih
        · rw [if_neg h3, if_neg h3]
          exact ih
    · rw [if_neg h1, if_neg h1]
      exact ih

/-- An environment where the move of the staging primary output fails. -/
def envMoveOutFails : RunEnv :=
  { preOut := false, preErr := false, moveOutOk := false, moveErrOk := true, scratch := [] }

/-- C3 counterexample: a job whose subprocess exits 0 but whose staging
.out move raises ends in status failed — the move is not guarded by the
per-file try/except, so the collection error escapes into the catch-all of
run_job. -/
theorem collect_move_failure_fails_job :
    (finishJob jb2 (SubprocResult.done 0 "orca output" "") envMoveOutFails 4).status
      = Status.failed
    ∧ (finishJob jb2 (SubprocResult.done 0 "orca output" "") envMoveOutFails 4).error
      = some "Error moving main output file" := by
  refine ⟨by decide, by decide⟩

/-- C3 (amended): per-file COPY failures in the scratch loop are logged and
skipped — collection continues with the remaining files, the job still ends
completed and the collected list is exactly the one without the failing
copies — but a failure of either staging MOVE escapes collection and fails
the job. -/
theorem collect_copy_failures_skipped :
    (∀ (job : Job) (stdout stderr : String) (env : RunEnv) (t : Nat),
      ((stagingAfterRun job.program stdout stderr env).1 = true → env.moveOutOk = true) →
      ((stagingAfterRun job.program stdout stderr env).2 = true → env.moveErrOk = true) →
      (finishJob job (SubprocResult.done 0 stdout stderr) env t).status = Status.completed
      ∧ (finishJob job (SubprocResult.done 0 stdout stderr) env t).output_files =
          collectedNoThrow job.id job.program
            (stagingAfterRun job.program stdout stderr env).1
            (stagingAfterRun job.program stdout stderr env).2 env)
    ∧ (∀ (id : Nat) (program : String) (pre post : List ScratchFile) (f : ScratchFile),
        f.copyOk = false →
        collectScratch id program (pre ++ f :: post)
          = collectScratch id program (pre ++ post)) := by
  constructor
  · intro job stdout stderr env t h1 h2
    rw [finishJob_exit0_ok job stdout stderr env t h1 h2]
    exact ⟨rfl, rfl⟩
  · intro id program pre post f hf
    exact collectScratch_skip id program post f hf pre

def scrA : ScratchFile := { name := "geometry.xyz", isFile := true, copyOk := true }

def scrB : ScratchFile := { name := "orbitals.molden", isFile := true, copyOk := false }

def scrC : ScratchFile := { name := "run.log", isFile := true, copyOk := true }

/-- A run whose scratch directory holds two collectable files and one whose
copy fails; both staging moves succeed. -/
def envScratch : RunEnv :=
  { preOut := false, preErr := false, moveOutOk := true, moveErrOk := true,
    scratch := [scrA, scrB, scrC] }

/-- Instance of the amended C3: the failing copy of orbitals.molden is
skipped, the other files are collected and the job completes. -/
theorem collect_copy_failures_skipped_holds :
    (finishJob jb2 (SubprocResult.done 0 "orca out" "") envScratch 6).status
      = Status.completed
    ∧ (finishJob jb2 (SubprocResult.done 0 "orca out" "") envScratch 6).output_files
      = [outName 0, "geometry.xyz", "run.log"]
    ∧ collectScratch 0 "orca" ([scrA] ++ scrB :: [scrC])
      = collectScratch 0 "orca" ([scrA] ++ [scrC]) := by
  have h := collect_copy_failures_skipped.1 jb2 "orca out" "" envScratch 6
    (fun _ => rfl) (fun _ => rfl)
  exact ⟨h.1, h.2.trans (by decide), collect_copy_failures_skipped.2 0 "orca" [scrA] [scrC] scrB rfl⟩

/-! ### C6 -/

/-- A run producing no stdout, no staging files and an empty scratch
directory. -/
def envEmpty : RunEnv :=
  { preOut := false, preErr := false, moveOutOk := true, moveErrOk := true, scratch := [] }

/-- C6 counterexample: an orca job whose subprocess exits 0 with empty
stdout ends completed, yet no staging .out file exists, so output_files
does not contain the primary output name. -/
theorem exit0_without_primary_output :
    (finishJob jb2 (SubprocResult.done 0 "" "") envEmpty 3).status = Status.completed
    ∧ outName 0 ∉ (finishJob jb2 (SubprocResult.done 0 "" "") envEmpty 3).output_files := by
  refine ⟨by decide, by decide⟩

/-- C6 (amended): if the subprocess exits 0 AND the staging primary output
file exists at collection time (for orca: non-empty stdout was persisted;
for qchem: the program wrote it) AND no staging move fails, the job ends
completed with (job_id).out in output_files. -/
theorem exit0_with_staging_completes_with_primary
    (job : Job) (stdout stderr : String) (env : RunEnv) (t : Nat)
    (hso : (stagingAfterRun job.program stdout stderr env).1 = true)
    (hmo : env.moveOutOk = true)
    (hme : (stagingAfterRun job.program stdout stderr env).2 = true → env.moveErrOk = true) :
    (finishJob job (SubprocResult.done 0 stdout stderr) env t).status = Status.completed
    ∧ outName job.id
        ∈ (finishJob job (SubprocResult.done 0 stdout stderr) env t).output_files := by
  rw [finishJob_exit0_ok job stdout stderr env t (fun _ => hmo) hme]
  refine ⟨rfl, ?_⟩
  show outName job.id ∈ collectedNoThrow job.id job.program
    (stagingAfterRun job.program stdout stderr env).1
    (stagingAfterRun job.program stdout stderr env).2 env
  unfold collectedNoThrow
  rw [hso]
  simp

/-- Instance of the amended C6: exit 0 with non-empty stdout yields a
completed job holding its primary output name. -/
theorem exit0_with_staging_completes_with_primary_holds :
    (finishJob jb2 (SubprocResult.done 0 "orca out" "") envEmpty 3).status = Status.completed
    ∧ outName 0
        ∈ (finishJob jb2 (SubprocResult.done 0 "orca out" "") envEmpty 3).output_files := by
  have h := exit0_with_staging_completes_with_primary jb2 "orca out" "" envEmpty 3
    (by decide) rfl (fun _ => rfl)
  exact h

/-! ### C10 -/

/-- C10 counterexample: the reachable state stBad holds a job that ended
failed (its staging .err move raised during collection, after exit code 0)
with a NON-empty output_files list. -/
theorem failed_job_with_output_files :
    Reachable cfg0 stBad
    ∧ stBad.jobs = [(0, jbBad)]
    ∧ jbBad.status = Status.failed
    ∧ jbBad.output_files = [outName 0] := by
  refine ⟨reach_stBad, rfl, by decide, by decide⟩

/-- C10 (amended): a job that reaches failed through a path that never
invokes collection — non-zero exit code, timeout, or an exception while
preparing or launching the subprocess — keeps its output_files, which are
empty for every queued or running job of any reachable state; only a
failure raised DURING collection (entered with exit code 0) can leave a
failed job with a non-empty output_files list. -/
theorem failed_without_collect_has_no_output_files :
    (∀ (cfg : Config) (st : MState), Reachable cfg st → ∀ p ∈ st.jobs,
      (p.2.status = Status.queued ∨ p.2.status = Status.running) → p.2.output_files = [])
    ∧ (∀ (job : Job) (r : SubprocResult) (env : RunEnv) (t : Nat), bypassesCollect r →
      (finishJob job r env t).status = Status.failed
      ∧ (finishJob job r env t).output_files = job.output_files) := by
  constructor
  · intro cfg st h p hp hstat
    have ph := (reachable_inv h).phase p hp
    rcases hstat with hstat | hstat
    · exact (ph.1 hstat).2.2.2
    · exact (ph.2.1 hstat).2.2.2.2
  · intro job r env t hr
    exact finishJob_bypass job r env t hr

/-- Instance of the amended C10: the running job of st3 has no output
files, and a non-zero exit keeps output_files empty while failing the
job. -/
theorem failed_without_collect_has_no_output_files_holds :
    jb2.output_files = []
    ∧ (finishJob jb2 (SubprocResult.done 1 "out" "err") envEmpty 9).status = Status.failed
    ∧ (finishJob jb2 (SubprocResult.done 1 "out" "err") envEmpty 9).output_files
        = jb2.output_files := by
  have h1 := failed_without_collect_has_no_output_files.1 cfg0 st3 reach_st3
    (0, jb2) (List.mem_singleton.mpr rfl) (Or.inr rfl)
  have h2 := failed_without_collect_has_no_output_files.2 jb2
    (SubprocResult.done 1 "out" "err") envEmpty 9 (show (1 : Int) ≠ 0 by decide)
  exact ⟨h1, h2.1, h2.2⟩

/-! ### C9 -/

/-- C9: list_jobs returns one summary per job (all jobs present), strictly
descending in submitted_at when the timestamps are pairwise distinct, and a
summary does not depend on input_content. -/
theorem list_jobs_spec (jobs : List Job)
    (hdist : (jobs.map Job.submitted_at).Nodup) :
    (list_jobs jobs).length = jobs.length
    ∧ (∀ j ∈ jobs, summarize j ∈ list_jobs jobs)
    ∧ (list_jobs jobs).Pairwise (fun a b => b.submitted_at < a.submitted_at)
    ∧ (∀ (j : Job) (c : String), summarize { j with input_content := c } = summarize j) := by
  have hperm : (List.insertionSort byDescTime jobs).Perm jobs :=
    List.perm_insertionSort byDescTime jobs
  refine ⟨?_, ?_, ?_, ?_⟩
  · unfold list_jobs
    rw [List.length_map]
    exact hperm.length_eq
  · intro j hj
    unfold list_jobs
    exact List.mem_map_of_mem summarize (hperm.mem_iff.mpr hj)
  · unfold list_jobs
    have hs : List.Sorted byDescTime (List.insertionSort byDescTime jobs) :=
      List.sorted_insertionSort byDescTime jobs
    have hnd : ((List.insertionSort byDescTime jobs).map Job.submitted_at).Nodup :=
      (hperm.map Job.submitted_at).nodup_iff.mpr hdist
    have hpne : (List.insertionSort byDescTime jobs).Pairwise
        (fun a b => a.submitted_at ≠ b.submitted_at) := List.pairwise_map.mp hnd
    have hcomb := List.Pairwise.and hs hpne
    have hstrict : (List.insertionSort byDescTime jobs).Pairwise
        (fun a b => b.submitted_at < a.submitted_at) := by
      refine hcomb.imp ?_
      intro a b hab
      exact Nat.lt_of_le_of_ne hab.1 (fun hc => hab.2 hc.symm)
    exact List.pairwise_map.mpr hstrict
  · intro j c
    rfl

/-- Three submissions with pairwise distinct timestamps. -/
def jobsC9 : List Job :=
  [mkJob 1 "a" "qchem" "i1" 10, mkJob 2 "b" "orca" "i2" 30, mkJob 3 "c" "qchem" "i3" 20]

/-- Instance of C9: the concrete listing is complete and newest first. -/
theorem list_jobs_spec_holds :
    (list_jobs jobsC9).length = jobsC9.length
    ∧ (list_jobs jobsC9).Pairwise (fun a b => b.submitted_at < a.submitted_at)
    ∧ (list_jobs jobsC9).map JobSummary.submitted_at = [30, 20, 10] := by
  have h := list_jobs_spec jobsC9 (by decide)
  exact ⟨h.1, h.2.2.1, by decide⟩
